import Mathlib

/-!
# Verification of the jwalk directory-walk core

Shallow embedding of `src/lib.rs` (the `jwalk` crate's builder, worker
closure and helpers) together with a model of the `core` module (whose
source is not part of this tree) reconstructed from the design document.
Paths are lists of OS byte-strings, OS byte-strings are lists of bytes,
`usize` is `Nat`, `std::time::Duration` is a count of nanoseconds, and the
filesystem is an explicit record of functions standing for `fs::read_dir`,
`fs::metadata` and `fs::symlink_metadata`.
-/

deriving instance DecidableEq for Except

/-- A byte string as handed out by the OS (`OsString`): a list of byte
values. -/
abbrev OsString := List Nat

/-- A filesystem path, as a list of components. -/
abbrev FsPath := List OsString

/-- The file-type variants distinguished by the walk
(`file | directory | symlink | other`). -/
inductive FileType where
  | file
  | dir
  | symlink
  | other
deriving DecidableEq

/-- Embeds `FileType::is_symlink`. -/
def FileType.is_symlink : FileType → Bool
  | .symlink => true
  | _ => false

/-- Embeds `FileType::is_dir`. -/
def FileType.is_dir : FileType → Bool
  | .dir => true
  | _ => false

/-- Is `b` a UTF-8 continuation byte (`0x80..=0xBF`)? -/
def utf8Cont (b : Nat) : Bool := 0x80 ≤ b && b < 0xC0

/-- Strict UTF-8 decoding of a byte string into its list of code points,
`none` when the bytes are not valid UTF-8 (overlong forms, surrogates and
values above `0x10FFFF` are rejected, as `str::from_utf8` does). This is
the semantics of `OsStr::to_str` on byte-string platforms. -/
def utf8Decode : List Nat → Option (List Nat)
  | [] => some []
  | b :: rest =>
    if b < 0x80 then (utf8Decode rest).map (fun cps => b :: cps)
    else if b < 0xC2 then none
    else if b < 0xE0 then
      match rest with
      | b1 :: rest1 =>
        if utf8Cont b1 then
          (utf8Decode rest1).map (fun cps => ((b - 0xC0) * 64 + (b1 - 0x80)) :: cps)
        else none
      | _ => none
    else if b < 0xF0 then
      match rest with
      | b1 :: b2 :: rest2 =>
        if (if b = 0xE0 then decide (0xA0 ≤ b1) && decide (b1 < 0xC0)
            else if b = 0xED then decide (0x80 ≤ b1) && decide (b1 < 0xA0)
            else utf8Cont b1) && utf8Cont b2 then
          (utf8Decode rest2).map
            (fun cps => ((b - 0xE0) * 4096 + (b1 - 0x80) * 64 + (b2 - 0x80)) :: cps)
        else none
      | _ => none
    else if b < 0xF5 then
      match rest with
      | b1 :: b2 :: b3 :: rest3 =>
        if (if b = 0xF0 then decide (0x90 ≤ b1) && decide (b1 < 0xC0)
            else if b = 0xF4 then decide (0x80 ≤ b1) && decide (b1 < 0x90)
            else utf8Cont b1) && utf8Cont b2 && utf8Cont b3 then
          (utf8Decode rest3).map
            (fun cps =>
              ((b - 0xF0) * 262144 + (b1 - 0x80) * 4096 + (b2 - 0x80) * 64 + (b3 - 0x80)) :: cps)
        else none
      | _ => none
    else none

/-- Embeds `is_hidden` (lib.rs:533-538): the name's UTF-8 view starts with `'.'`
(code point 46); a name that fails UTF-8 decoding is not hidden. -/
def is_hidden (file_name : OsString) : Bool :=
  match utf8Decode file_name with
  | some cps => cps.head? == some 46
  | none => false

/-- The walk's error value, modelled from the spec: a path error
"carries depth and path" (the path is absent for raw iteration errors);
`errno` stands for the underlying OS error. The `core` module defining
`Error` is not part of the given sources. -/
structure Error where
  depth : Nat
  path : Option FsPath
  errno : Nat
deriving DecidableEq

/-- Embeds `Error::from_path(depth, path, err)`. -/
def Error.from_path (depth : Nat) (path : FsPath) (errno : Nat) : Error :=
  ⟨depth, some path, errno⟩

/-- Embeds `Error::from_io(depth, err)`. -/
def Error.from_io (depth : Nat) (errno : Nat) : Error :=
  ⟨depth, none, errno⟩

/-- One filesystem entry as carried through the walk (`DirEntry`),
modelled from the spec's data model (the `core` module is not part of the
given sources): depth, OS-native name, shared parent path, file type, the
optional path scheduled for a child `read_dir`, the symlink-loop ancestor
chain, and the user-typed annotation slot. The lazily populated metadata
cache is not modelled. -/
structure DirEntry (E : Type) where
  depth : Nat
  file_name : OsString
  parent_path : FsPath
  file_type : FileType
  read_children_path : Option FsPath
  follow_link_ancestors : List FsPath
  client_state : E
deriving DecidableEq

/-- Embeds `DirEntry::path()`: parent path extended with the file name. -/
def DirEntry.path {E : Type} (de : DirEntry E) : FsPath :=
  de.parent_path ++ [de.file_name]

/-- A per-directory result: either a `DirEntry` or an `Error`. -/
abbrev Res (E : Type) := Except Error (DirEntry E)

/-- A raw OS directory entry as produced by `fs::read_dir`: its name plus
the outcome of asking the OS for its file type (which can fail with an OS
error). -/
structure RawEntry where
  file_name : OsString
  file_type : Except Nat FileType
deriving DecidableEq

/-- The ambient filesystem: `read_dir` enumerates a directory (the whole
call can fail, and each produced entry can itself be an error),
`metadata` stats following symlinks, `symlink_metadata` stats without
following. -/
structure Fs where
  read_dir : FsPath → Except Nat (List (Except Nat RawEntry))
  metadata : FsPath → Except Nat FileType
  symlink_metadata : FsPath → Except Nat FileType

/-- Specification of a future `read_dir` operation (`ReadDirSpec`). -/
structure ReadDirSpec (B : Type) where
  path : FsPath
  depth : Nat
  client_read_state : B
  follow_link_ancestors : List FsPath
deriving DecidableEq

/-- The worker's output batch (`ReadDir`): outgoing user state plus the
ordered child results. -/
structure ReadDir (B E : Type) where
  read_dir_state : B
  results : List (Res E)
deriving DecidableEq

/-- Embeds `std::time::Duration`, as nanoseconds. -/
abbrev Duration := Nat

/-- Embeds `Duration::from_secs`. -/
def Duration.from_secs (n : Nat) : Duration := n * 1000000000

/-- Degree of parallelism (`Parallelism`, lib.rs:176-197). The rayon pool
of `RayonExistingPool` is an opaque handle. -/
inductive Parallelism where
  | Serial
  | RayonDefaultPool (busy_timeout : Duration)
  | RayonExistingPool (pool : Nat) (busy_timeout : Duration)
  | RayonNewPool (num_threads : Nat)
deriving DecidableEq

/-- Embeds `Parallelism::timeout` (lib.rs:524-530). -/
def Parallelism.timeout : Parallelism → Option Duration
  | .Serial | .RayonNewPool _ => none
  | .RayonDefaultPool busy_timeout => some busy_timeout
  | .RayonExistingPool _ busy_timeout => some busy_timeout

/-- The user callback (`ProcessReadDirFunction`): receives the optional
depth, the directory path, the inherited state and the batch, and returns
the updated state and batch (Rust mutates both through `&mut`). -/
def ProcessReadDirFunction (B E : Type) :=
  Option Nat → FsPath → B → List (Res E) → B × List (Res E)

/-- Embeds `WalkDirOptions` (lib.rs:199-208). -/
structure WalkDirOptions (B E : Type) where
  sort : Bool
  min_depth : Nat
  max_depth : Nat
  skip_hidden : Bool
  follow_links : Bool
  parallelism : Parallelism
  root_read_dir_state : B
  process_read_dir : Option (ProcessReadDirFunction B E)

/-- Embeds `WalkDirGeneric` (lib.rs:158-161). -/
structure WalkDirGeneric (B E : Type) where
  root : FsPath
  options : WalkDirOptions B E

/-- Embeds `usize::MAX` on a 64-bit target. -/
def USIZE_MAX : Nat := 2 ^ 64 - 1

/-- Embeds `WalkDirGeneric::new` (lib.rs:215-231). -/
def WalkDirGeneric.new {B E : Type} [Inhabited B] (root : FsPath) : WalkDirGeneric B E :=
  { root := root
    options :=
      { sort := false
        min_depth := 0
        max_depth := USIZE_MAX
        skip_hidden := true
        follow_links := false
        parallelism := .RayonDefaultPool (Duration.from_secs 1)
        root_read_dir_state := default
        process_read_dir := none } }

/-- Embeds `WalkDirGeneric::sort` (lib.rs:241-244). -/
def WalkDirGeneric.sort {B E : Type} (w : WalkDirGeneric B E) (sort : Bool) :
    WalkDirGeneric B E :=
  { w with options := { w.options with sort := sort } }

/-- Embeds `WalkDirGeneric::skip_hidden` (lib.rs:247-250). -/
def WalkDirGeneric.skip_hidden {B E : Type} (w : WalkDirGeneric B E) (skip_hidden : Bool) :
    WalkDirGeneric B E :=
  { w with options := { w.options with skip_hidden := skip_hidden } }

/-- Embeds `WalkDirGeneric::follow_links` (lib.rs:263-266). -/
def WalkDirGeneric.follow_links {B E : Type} (w : WalkDirGeneric B E) (follow_links : Bool) :
    WalkDirGeneric B E :=
  { w with options := { w.options with follow_links := follow_links } }

/-- Embeds `WalkDirGeneric::min_depth` (lib.rs:273-279): set `min_depth`, then
clamp it down to `max_depth`. -/
def WalkDirGeneric.min_depth {B E : Type} (w : WalkDirGeneric B E) (depth : Nat) :
    WalkDirGeneric B E :=
  let o := { w.options with min_depth := depth }
  let o := if o.min_depth > o.max_depth then { o with min_depth := o.max_depth } else o
  { w with options := o }

/-- Embeds `WalkDirGeneric::max_depth` (lib.rs:295-304): set `max_depth`, raise
it to `min_depth` if below, then force `Serial` parallelism when the
resulting `max_depth` is below 2. -/
def WalkDirGeneric.max_depth {B E : Type} (w : WalkDirGeneric B E) (depth : Nat) :
    WalkDirGeneric B E :=
  let o := { w.options with max_depth := depth }
  let o := if o.max_depth < o.min_depth then { o with max_depth := o.min_depth } else o
  let o := if o.max_depth < 2 then { o with parallelism := .Serial } else o
  { w with options := o }

/-- Embeds `WalkDirGeneric::parallelism` (lib.rs:308-311). -/
def WalkDirGeneric.parallelism {B E : Type} (w : WalkDirGeneric B E) (p : Parallelism) :
    WalkDirGeneric B E :=
  { w with options := { w.options with parallelism := p } }

/-- Embeds `WalkDirGeneric::root_read_dir_state` (lib.rs:316-319). -/
def WalkDirGeneric.root_read_dir_state {B E : Type} (w : WalkDirGeneric B E) (st : B) :
    WalkDirGeneric B E :=
  { w with options := { w.options with root_read_dir_state := st } }

/-- Embeds `WalkDirGeneric::process_read_dir` (lib.rs:328-337). -/
def WalkDirGeneric.process_read_dir {B E : Type} (w : WalkDirGeneric B E)
    (f : ProcessReadDirFunction B E) : WalkDirGeneric B E :=
  { w with options := { w.options with process_read_dir := some f } }

/-- Modelled from the spec: `DirEntry::follow_symlink` (the `core` module
is not part of the given sources). Resolves the link once via the
metadata of the link target; on failure the error carries the entry's
depth and path. The resolved entry retains the link's own path but
reports the target's file type; on symlink-to-directory the
`read_children_path` is set to the link's path. (Symlink-loop detection
is outside the scope of the claims and is not modelled.) -/
def DirEntry.follow_symlink {E : Type} (meta : FsPath → Except Nat FileType)
    (de : DirEntry E) : Res E :=
  match meta de.path with
  | .error errno => .error (Error.from_path de.depth de.path errno)
  | .ok t =>
    .ok { de with
          file_type := t
          read_children_path := if t.is_dir then some de.path else none }

/-- Embeds `process_dir_entry_result` (lib.rs:340-369): follow the symlink when
`follow_links` is on; then, as a special case, a root entry (depth 0)
that is still a symlink is always followed via `fs::metadata`, and when
the target is a directory its `read_children_path` is set — without
changing its reported file type. -/
def process_dir_entry_result {E : Type} (meta : FsPath → Except Nat FileType)
    (follow_links : Bool) (dir_entry_result : Res E) : Res E :=
  match dir_entry_result with
  | .error err => .error err
  | .ok de0 =>
    match (if follow_links && de0.file_type.is_symlink
           then de0.follow_symlink meta else .ok de0) with
    | .error err => .error err
    | .ok de =>
      if de.depth == 0 && de.file_type.is_symlink then
        match meta de.path with
        | .error errno => .error (Error.from_path 0 de.path errno)
        | .ok mt =>
          if mt.is_dir then .ok { de with read_children_path := some de.path } else .ok de
      else .ok de

/-- Modelled from the spec: `DirEntry::from_entry` (the `core` module is
not part of the given sources). Builds a `DirEntry` at the given depth
with the shared parent path and ancestor chain; a per-entry OS error
(failing to obtain the entry's file type) yields a path error carrying
that depth; for a directory the `read_children_path` is set so that its
contents are scheduled. -/
def DirEntry.from_entry {E : Type} [Inhabited E] (depth : Nat) (parent_path : FsPath)
    (raw : RawEntry) (follow_link_ancestors : List FsPath) : Res E :=
  match raw.file_type with
  | .error errno => .error (Error.from_path depth (parent_path ++ [raw.file_name]) errno)
  | .ok ft =>
    .ok { depth := depth
          file_name := raw.file_name
          parent_path := parent_path
          file_type := ft
          read_children_path := if ft.is_dir then some (parent_path ++ [raw.file_name]) else none
          follow_link_ancestors := follow_link_ancestors
          client_state := default }

/-- The ancestor chain used for the children of `spec` (lib.rs:425-432):
extended by `spec.path` iff `follow_links` is on. -/
def extended_ancestors {B E : Type} (cfg : WalkDirOptions B E) (spec : ReadDirSpec B) :
    List FsPath :=
  if cfg.follow_links then spec.follow_link_ancestors ++ [spec.path] else
    spec.follow_link_ancestors

/-- The `filter_map` body applied to the raw `read_dir` stream
(lib.rs:436-460): raw iteration errors become `Err` items at the
contents' depth; entries are built with `DirEntry::from_entry` (errors
pass through); hidden names are dropped when `skip_hidden` is on; the
survivors go through `process_dir_entry_result`. -/
def read_dir_results {B E : Type} [Inhabited E] (cfg : WalkDirOptions B E) (fs : Fs)
    (spec : ReadDirSpec B) (raws : List (Except Nat RawEntry)) : List (Res E) :=
  raws.filterMap (fun dir_entry_result =>
    match dir_entry_result with
    | .error errno => some (.error (Error.from_io (spec.depth + 1) errno))
    | .ok fs_dir_entry =>
      match DirEntry.from_entry (E := E) (spec.depth + 1) spec.path fs_dir_entry
          (extended_ancestors cfg spec) with
      | .error err => some (.error err)
      | .ok dir_entry =>
        if cfg.skip_hidden && is_hidden dir_entry.file_name then none
        else some (process_dir_entry_result fs.metadata cfg.follow_links (.ok dir_entry)))

/-- The comparator byte order on OS strings (`OsStr::cmp`):
lexicographic on bytes. -/
def cmpBytes : OsString → OsString → Ordering
  | [], [] => .eq
  | [], _ :: _ => .lt
  | _ :: _, [] => .gt
  | a :: as, b :: bs =>
    match compare a b with
    | .eq => cmpBytes as bs
    | o => o

/-- The `sort_by` comparator of the worker (lib.rs:463-467): `Ok`s by
`file_name`, `Ok` before `Err`, `Err`s tie. -/
def resultCmp {E : Type} : Res E → Res E → Ordering
  | .ok a, .ok b => cmpBytes a.file_name b.file_name
  | .ok _, .error _ => .lt
  | .error _, .ok _ => .gt
  | .error _, .error _ => .eq

/-- The non-strict order induced by `resultCmp` ("does not compare
greater"). -/
def leRes {E : Type} (a b : Res E) : Prop := resultCmp a b ≠ .gt

instance {E : Type} : DecidableRel (leRes (E := E)) := fun a b =>
  inferInstanceAs (Decidable (resultCmp a b ≠ .gt))

/-- Embeds `Vec::sort_by` with the worker's comparator: Rust's stable sort,
embedded as a stable insertion sort (a stable sort is extensionally
unique for a total preorder). -/
def sort_batch {E : Type} (l : List (Res E)) : List (Res E) :=
  List.insertionSort leRes l

/-- The batch as it stands right before the user callback is invoked
(lib.rs:462-469): sorted iff `sort` is on. -/
def pre_callback_batch {B E : Type} [Inhabited E] (cfg : WalkDirOptions B E) (fs : Fs)
    (spec : ReadDirSpec B) (raws : List (Except Nat RawEntry)) : List (Res E) :=
  if cfg.sort then sort_batch (read_dir_results cfg fs spec raws)
  else read_dir_results cfg fs spec raws

/-- The callback invocation of the worker (lib.rs:471-478): when a
callback is configured it receives `Some(read_dir_depth)`, the directory
path, the inherited state and the batch; otherwise state and batch pass
through. -/
def apply_process_read_dir {B E : Type} (cfg : WalkDirOptions B E) (spec : ReadDirSpec B)
    (batch : List (Res E)) : ReadDir B E :=
  match cfg.process_read_dir with
  | some f =>
    let (st, results) := f (some spec.depth) spec.path spec.client_read_state batch
    ⟨st, results⟩
  | none => ⟨spec.client_read_state, batch⟩

/-- The worker closure handed to `DirEntryIter` (lib.rs:410-481): on a
spec whose contents lie beyond `max_depth`, an empty batch with the
inherited state; otherwise enumerate the directory (a failure to open it
is the sole, top-level error, built by `Error::from_path(0, path, err)`),
filter and process each raw entry, sort when requested, and run the user
callback. -/
def read_dir_worker {B E : Type} [Inhabited E] (cfg : WalkDirOptions B E) (fs : Fs)
    (spec : ReadDirSpec B) : Except Error (ReadDir B E) :=
  if spec.depth + 1 > cfg.max_depth then
    .ok ⟨spec.client_read_state, []⟩
  else
    match fs.read_dir spec.path with
    | .error errno => .error (Error.from_path 0 spec.path errno)
    | .ok raws => .ok (apply_process_read_dir cfg spec (pre_callback_batch cfg fs spec raws))

/-- Outcome of the consumer's pull on the head slot of the result bus:
the head's batch, a busy failure, or blocking forever. -/
inductive PullOutcome (R : Type) where
  | ready (r : R)
  | busy
  | blocked
deriving DecidableEq

/-- Modelled from the spec: the consumer's pull of the head slot of the
`OrderedResultBus` (§4.2; the `core` module implementing it is not part
of the given sources). `ready_at` is the instant the head slot becomes
ready (`none` = never). With a configured timeout, the pull returns a
busy failure when the timeout elapses before the head is ready; with no
timeout it waits indefinitely, so it either delivers the head batch or
blocks, and a busy failure cannot arise. -/
def bus_pull {R : Type} (timeout : Option Duration) (ready_at : Option Duration)
    (head : R) : PullOutcome R :=
  match timeout, ready_at with
  | none, some _ => .ready head
  | none, none => .blocked
  | some t, some r => if r ≤ t then .ready head else .busy
  | some _, none => .busy

/-- One builder call that touches the depth bounds. -/
inductive DepthOp where
  | setMin (depth : Nat)
  | setMax (depth : Nat)

/-- Applies one depth builder call. -/
def applyDepthOp {B E : Type} (w : WalkDirGeneric B E) : DepthOp → WalkDirGeneric B E
  | .setMin d => w.min_depth d
  | .setMax d => w.max_depth d

/-- Applies a sequence of `min_depth`/`max_depth` builder calls, left to
right. -/
def applyDepthOps {B E : Type} (w : WalkDirGeneric B E) (ops : List DepthOp) :
    WalkDirGeneric B E :=
  ops.foldl applyDepthOp w

/-! ## Concrete fixtures used by witnesses and counterexamples -/

/-- A default option set over trivial client state, matching
`WalkDirGeneric::new`'s defaults. -/
def cfgBase : WalkDirOptions Unit Unit :=
  { sort := false
    min_depth := 0
    max_depth := USIZE_MAX
    skip_hidden := true
    follow_links := false
    parallelism := .RayonDefaultPool (Duration.from_secs 1)
    root_read_dir_state := ()
    process_read_dir := none }

/-- A filesystem on which every operation fails. -/
def fsFail : Fs :=
  { read_dir := fun _ => .error 7
    metadata := fun _ => .error 9
    symlink_metadata := fun _ => .error 9 }

/-- Options for the C1 witness: `max_depth = 0`. -/
def cfgC1 : WalkDirOptions Unit Unit := { cfgBase with max_depth := 0 }

/-- Spec for the C1 witness: reading the root's children at depth 0. -/
def specC1 : ReadDirSpec Unit :=
  { path := [[114]], depth := 0, client_read_state := (), follow_link_ancestors := [] }

/-- Spec for the C5 fixtures: a directory at depth 1 whose open fails. -/
def specC5 : ReadDirSpec Unit :=
  { path := [[114], [97]], depth := 1, client_read_state := (), follow_link_ancestors := [] }

/-- A raw OS entry with a hidden name (".a") whose file-type query fails
with OS error 5. -/
def rawHiddenBad : RawEntry := { file_name := [46, 97], file_type := .error 5 }

/-- A root entry that is a symlink, for the C4 witness. -/
def deC4 : DirEntry Unit :=
  { depth := 0
    file_name := [108]
    parent_path := []
    file_type := .symlink
    read_children_path := none
    follow_link_ancestors := []
    client_state := () }

/-- A metadata oracle resolving every path to a directory, for the C4
witness. -/
def metaC4 : FsPath → Except Nat FileType := fun _ => .ok .dir

/-- Is a result an `Err` item? -/
def isErrRes {E : Type} : Res E → Bool
  | .error _ => true
  | .ok _ => false

/-- Is a result an `Ok` entry with the given file name? -/
def isOkNamed {E : Type} (name : OsString) : Res E → Bool
  | .ok de => de.file_name == name
  | .error _ => false

/-- Options for the C2 witness: sorting enabled. -/
def cfgC2 : WalkDirOptions Unit Unit := { cfgBase with sort := true }

/-- Raw entries for the C2 witness: "b" and "a" out of order with an
iteration error between them. -/
def rawsC2 : List (Except Nat RawEntry) :=
  [.ok { file_name := [98], file_type := .ok .file },
   .error 3,
   .ok { file_name := [97], file_type := .ok .file }]

/-- Filesystem for the C2 witness. -/
def fsC2 : Fs :=
  { read_dir := fun p => if p = [[114]] then .ok rawsC2 else .error 2
    metadata := fun _ => .error 9
    symlink_metadata := fun _ => .error 9 }

/-- Spec for the C2 witness: the root directory. -/
def specC2 : ReadDirSpec Unit :=
  { path := [[114]], depth := 0, client_read_state := (), follow_link_ancestors := [] }

/-- Modelled from the spec: root `DirEntry` synthesis
(`DirEntry::from_path`, in the `core` module absent from the given
sources; spec §4.4): the root entry is built from the user-supplied path
with depth 0; its file type is taken without following symlinks; a
directory root gets its `read_children_path` set. -/
def DirEntry.from_path {E : Type} [Inhabited E] (fs : Fs) (root : FsPath)
    (follow_link_ancestors : List FsPath) : Res E :=
  match fs.symlink_metadata root with
  | .error errno => .error (Error.from_path 0 root errno)
  | .ok ft =>
    .ok { depth := 0
          file_name := root.getLastD []
          parent_path := root.dropLast
          file_type := ft
          read_children_path := if ft.is_dir then some root else none
          follow_link_ancestors := follow_link_ancestors
          client_state := default }

/-- Embeds the root handling of `into_iter` (lib.rs:384-403): build the
root entry (ancestor chain seeded with the root itself iff
`follow_links`), process it, and invoke the user callback once with
`None` as depth on the one-element root batch. The pair is the outgoing
root state and the root batch. -/
def root_entry_results {B E : Type} [Inhabited E] (cfg : WalkDirOptions B E) (fs : Fs)
    (root : FsPath) : B × List (Res E) :=
  let follow_link_ancestors : List FsPath := if cfg.follow_links then [root] else []
  let root_entry : Res E := DirEntry.from_path fs root follow_link_ancestors
  let root_parent_path : FsPath :=
    match root_entry with
    | .ok de => de.parent_path
    | .error _ => []
  let results := [process_dir_entry_result fs.metadata cfg.follow_links root_entry]
  match cfg.process_read_dir with
  | some f => f none root_parent_path cfg.root_read_dir_state results
  | none => (cfg.root_read_dir_state, results)

/-- Modelled from the spec: the depth-first issuance order of the
`ReadDirSpec`s of one subtree (§2, §4.3; the `core` module implementing
the depth-first queues is not part of the given sources): a directory's
spec is issued when its entry is encountered, followed by the specs of
its subtree in entry order; a child directory's spec inherits the batch's
outgoing state and the entry's ancestor chain. `fuel` bounds the
recursion depth and is universally quantified in the theorems. -/
def sub_specs {B E : Type} [Inhabited E] (cfg : WalkDirOptions B E) (fs : Fs) :
    Nat → ReadDirSpec B → List (ReadDirSpec B)
  | 0, spec => [spec]
  | fuel + 1, spec =>
    spec ::
      (match read_dir_worker cfg fs spec with
       | .error _ => []
       | .ok rd =>
         rd.results.flatMap (fun r =>
           match r with
           | .ok de =>
             match de.read_children_path with
             | some p =>
               sub_specs cfg fs fuel
                 { path := p, depth := de.depth, client_read_state := rd.read_dir_state,
                   follow_link_ancestors := de.follow_link_ancestors }
             | none => []
           | .error _ => []))

/-- The depth-first spec issuance sequence of a whole walk: the subtrees
of the root batch's directory entries, in order. -/
def spec_trace {B E : Type} [Inhabited E] (cfg : WalkDirOptions B E) (fs : Fs)
    (root : FsPath) (fuel : Nat) : List (ReadDirSpec B) :=
  (root_entry_results cfg fs root).2.flatMap (fun r =>
    match r with
    | .ok de =>
      match de.read_children_path with
      | some p =>
        sub_specs cfg fs fuel
          { path := p, depth := de.depth,
            client_read_state := (root_entry_results cfg fs root).1,
            follow_link_ancestors := de.follow_link_ancestors }
      | none => []
    | .error _ => [])

/-- The batch stream the workers produce, in issuance order. -/
def batch_stream {B E : Type} [Inhabited E] (cfg : WalkDirOptions B E) (fs : Fs)
    (root : FsPath) (fuel : Nat) : List (Except Error (ReadDir B E)) :=
  (spec_trace cfg fs root fuel).map (read_dir_worker cfg fs)

/-- Modelled from the spec: the consumer-side flattening of the batch
stream (`DirEntryIter`, §4.3; the `core` module is not part of the given
sources). `frames` is the stack of unfinished sibling lists, the head
being the current directory; entries are yielded pre-order; an entry
with a `read_children_path` consumes the next batch of the stream right
after being yielded (strict depth-first: the next stream batch is that
directory's); `Ok` entries below `min_depth` are suppressed; a failed
batch surfaces as a single `Err` item where the directory's contents
would have appeared. `fuel` bounds the iteration. -/
def drive {B E : Type} (min_depth : Nat) :
    Nat → List (Except Error (ReadDir B E)) → List (List (Res E)) → List (Res E)
  | 0, _, _ => []
  | _ + 1, _, [] => []
  | fuel + 1, batches, [] :: rest => drive min_depth fuel batches rest
  | fuel + 1, batches, (r :: more) :: rest =>
    match r with
    | .error e => .error e :: drive min_depth fuel batches (more :: rest)
    | .ok de =>
      let yielded : List (Res E) := if min_depth ≤ de.depth then [.ok de] else []
      match de.read_children_path with
      | none => yielded ++ drive min_depth fuel batches (more :: rest)
      | some _ =>
        match batches with
        | [] => yielded ++ drive (B := B) min_depth fuel [] (more :: rest)
        | .error e :: bs => yielded ++ .error e :: drive min_depth fuel bs (more :: rest)
        | .ok rd :: bs => yielded ++ drive min_depth fuel bs (rd.results :: more :: rest)

/-- Pairs each element of a list with its index, starting at `i`. -/
def with_idx {α : Type} : List α → Nat → List (Nat × α)
  | [], _ => []
  | a :: l, i => (i, a) :: with_idx l (i + 1)

/-- The value stored under issuance index `k` among completed slots. -/
def lookup_idx {α : Type} : List (Nat × α) → Nat → Option α
  | [], _ => none
  | (k, v) :: rest, h => if k = h then some v else lookup_idx rest h

/-- Modelled from the spec: the in-order delivery of the
`OrderedResultBus` (§3 "Ordering token", §4.2): whatever order completed
slots arrive in, the consumer takes them in issuance-index order. -/
def delivered_batches {α : Type} (arrival : List (Nat × α)) : List α :=
  (List.range arrival.length).filterMap (lookup_idx arrival)

/-- A full run of the pipeline under an explicit completion schedule:
the root batch seeds the stream driver, whose batches are delivered by
the bus out of the scheduled arrivals. The `Parallelism` choice takes
part only through the schedule, which the theorems quantify over. -/
def run_scheduled {B E : Type} [Inhabited E] (cfg : WalkDirOptions B E) (fs : Fs)
    (root : FsPath) (fuel : Nat) (_p : Parallelism)
    (arrival : List (Nat × Except Error (ReadDir B E))) : List (Res E) :=
  drive cfg.min_depth fuel (delivered_batches arrival) [(root_entry_results cfg fs root).2]

/-- The serial run: batches taken directly in issuance order. -/
def run_serial {B E : Type} [Inhabited E] (cfg : WalkDirOptions B E) (fs : Fs)
    (root : FsPath) (fuel : Nat) : List (Res E) :=
  drive cfg.min_depth fuel (batch_stream cfg fs root fuel) [(root_entry_results cfg fs root).2]

/-- One invocation of the user callback: at the root's virtual parent,
or at a directory spec. -/
inductive CallSite (B : Type) where
  | root
  | dir (spec : ReadDirSpec B)

/-- The depth argument the code passes at a call site: `None` at the
root (lib.rs:398), `Some(read_dir_depth)` in the worker (lib.rs:473). -/
def callArg {B : Type} : CallSite B → Option Nat
  | .root => none
  | .dir spec => some spec.depth

/-- Modelled from the spec: the sequence of callback invocations of a
walk when a callback is configured — once for the root's virtual parent
before iteration starts (lib.rs:396-403), then once per processed spec
inside the worker, provided the worker neither returned early at the
depth bound nor failed to open the directory (lib.rs:418-478). Empty
when no callback is configured. -/
def call_trace {B E : Type} [Inhabited E] (cfg : WalkDirOptions B E) (fs : Fs)
    (root : FsPath) (fuel : Nat) : List (CallSite B) :=
  match cfg.process_read_dir with
  | none => []
  | some _ =>
    CallSite.root ::
      (spec_trace cfg fs root fuel).filterMap (fun spec =>
        if spec.depth + 1 > cfg.max_depth then none
        else
          match fs.read_dir spec.path with
          | .error _ => none
          | .ok _ => some (CallSite.dir spec))

/-- Options for the C7 witness: a configured (pass-through) callback. -/
def cfgC7 : WalkDirOptions Unit Unit :=
  { cfgBase with process_read_dir := some (fun _ _ st l => (st, l)) }

/-- Filesystem for the C7/C8 witnesses: root directory "r" containing
the empty directory "a" and the file "b". -/
def fsC8 : Fs :=
  { read_dir := fun p =>
      if p = [[114]] then
        .ok [.ok { file_name := [97], file_type := .ok .dir },
             .ok { file_name := [98], file_type := .ok .file }]
      else if p = [[114], [97]] then .ok []
      else .error 2
    metadata := fun _ => .error 9
    symlink_metadata := fun p => if p = [[114]] then .ok .dir else .error 9 }

/-- A scheduled arrival order for the C8 witness: the completed batches
arrive in reverse issuance order. -/
def arrC8 : List (Nat × Except Error (ReadDir Unit Unit)) :=
  (with_idx (batch_stream cfgBase fsC8 [[114]] 2) 0).reverse

/-! ## Theorems -/

/-- C1. If `spec.depth + 1 > max_depth` the worker returns an empty batch
whose outgoing state is the spec's inherited state; this holds uniformly
in the filesystem, so no `read_dir` (nor any other filesystem operation)
can influence the result — none is performed. -/
theorem read_dir_worker_beyond_max_depth {B E : Type} [Inhabited E]
    (cfg : WalkDirOptions B E) (spec : ReadDirSpec B)
    (h : spec.depth + 1 > cfg.max_depth) :
    ∀ fs : Fs, read_dir_worker cfg fs spec = .ok ⟨spec.client_read_state, []⟩ := by
  intro fs
  unfold read_dir_worker
  simp [h]

/-- C1 witness: a concrete spec at depth 0 with `max_depth = 0`, on a
filesystem all of whose operations fail — the worker still succeeds with
an empty batch and the inherited state. -/
theorem read_dir_worker_beyond_max_depth_witness :
    specC1.depth + 1 > cfgC1.max_depth ∧
      read_dir_worker cfgC1 fsFail specC1 = .ok ⟨(), []⟩ :=
  ⟨by decide, read_dir_worker_beyond_max_depth cfgC1 specC1 (by decide) fsFail⟩

/-- C3 counterexample: with `min_depth` previously set to 5, calling
`max_depth 1` (an argument below 2) does not set `Serial` parallelism,
because the clamped `max_depth` becomes 5. -/
theorem max_depth_lt_two_not_serial_cex :
    ((((WalkDirGeneric.new (B := Unit) (E := Unit) []).min_depth 5).max_depth 1).options.parallelism
        ≠ Parallelism.Serial) ∧
      (1 : Nat) < 2 := by
  constructor
  · intro h
    exact absurd h (by decide)
  · decide

/-- C3 amended: calling `max_depth` with an argument below 2 sets the
parallelism to `Serial` provided the builder's current `min_depth` is
also below 2 (the test is applied to the clamped `max_depth`). -/
theorem max_depth_lt_two_serial {B E : Type} (w : WalkDirGeneric B E) (depth : Nat)
    (hd : depth < 2) (hm : w.options.min_depth < 2) :
    (w.max_depth depth).options.parallelism = Parallelism.Serial := by
  simp only [WalkDirGeneric.max_depth]
  split_ifs with h1 <;> rfl

/-- C3 amended, witness: from the defaults (`min_depth = 0`),
`max_depth 1` does force `Serial`. -/
theorem max_depth_lt_two_serial_witness :
    (1 : Nat) < 2 ∧
      (WalkDirGeneric.new (B := Unit) (E := Unit) []).options.min_depth < 2 ∧
      ((WalkDirGeneric.new (B := Unit) (E := Unit) []).max_depth 1).options.parallelism
        = Parallelism.Serial :=
  ⟨by decide, by decide,
    max_depth_lt_two_serial (WalkDirGeneric.new []) 1 (by decide) (by decide)⟩

/-- C10. `Parallelism::timeout` is `none` exactly on `Serial` and
`RayonNewPool`, and `some busy_timeout` on `RayonDefaultPool` and
`RayonExistingPool`; consequently a pull on an unready head under
`Serial` or `RayonNewPool` has no timeout and can never produce a busy
failure. -/
theorem parallelism_timeout_spec :
    Parallelism.Serial.timeout = none ∧
      (∀ n, (Parallelism.RayonNewPool n).timeout = none) ∧
      (∀ t, (Parallelism.RayonDefaultPool t).timeout = some t) ∧
      (∀ p t, (Parallelism.RayonExistingPool p t).timeout = some t) ∧
      (∀ (R : Type) (ready_at : Option Duration) (head : R),
        bus_pull Parallelism.Serial.timeout ready_at head ≠ PullOutcome.busy ∧
          ∀ n, bus_pull (Parallelism.RayonNewPool n).timeout ready_at head ≠ PullOutcome.busy) := by
  refine ⟨rfl, fun _ => rfl, fun _ => rfl, fun _ _ => rfl, ?_⟩
  intro R ready_at head
  constructor
  · cases ready_at <;> simp [bus_pull, Parallelism.timeout]
  · intro n
    cases ready_at <;> simp [bus_pull, Parallelism.timeout]

/-- C9. Starting from `WalkDirGeneric::new`, after any sequence of
`min_depth` and `max_depth` builder calls the options satisfy
`min_depth ≤ max_depth`. -/
theorem min_le_max_invariant {B E : Type} [Inhabited B] (root : FsPath)
    (ops : List DepthOp) :
    (applyDepthOps (WalkDirGeneric.new (B := B) (E := E) root) ops).options.min_depth ≤
      (applyDepthOps (WalkDirGeneric.new (B := B) (E := E) root) ops).options.max_depth := by
  induction ops using List.reverseRecOn with
  | nil => exact Nat.zero_le _
  | append_singleton ops op _ih =>
    show (applyDepthOps (WalkDirGeneric.new (B := B) (E := E) root) (ops ++ [op])).options.min_depth ≤ _
    rw [applyDepthOps, List.foldl_append, List.foldl_cons, List.foldl_nil]
    generalize List.foldl applyDepthOp (WalkDirGeneric.new (B := B) (E := E) root) ops = w
    cases op with
    | setMin d =>
      simp only [applyDepthOp, WalkDirGeneric.min_depth]
      split_ifs with h <;> simp <;> omega
    | setMax d =>
      simp only [applyDepthOp, WalkDirGeneric.max_depth]
      split_ifs with h1 h2 h3 <;> simp <;> omega

/-- Helper: the link-following step of `process_dir_entry_result`
preserves depth and file name whenever it succeeds. -/
theorem follow_step_preserves {E : Type} (meta : FsPath → Except Nat FileType)
    (fl : Bool) (de0 de1 : DirEntry E)
    (h : (if fl && de0.file_type.is_symlink then de0.follow_symlink meta else .ok de0)
        = .ok de1) :
    de1.depth = de0.depth ∧ de1.file_name = de0.file_name := by
  split at h
  · unfold DirEntry.follow_symlink at h
    split at h
    · cases h
    · cases h; exact ⟨rfl, rfl⟩
  · cases h; exact ⟨rfl, rfl⟩

/-- Helper: when the link-following step of `process_dir_entry_result`
fails, the error carries the entry's depth. -/
theorem follow_step_error_depth {E : Type} (meta : FsPath → Except Nat FileType)
    (fl : Bool) (de0 : DirEntry E) (err : Error)
    (h : (if fl && de0.file_type.is_symlink then de0.follow_symlink meta else .ok de0)
        = .error err) :
    err.depth = de0.depth := by
  split at h
  · unfold DirEntry.follow_symlink at h
    split at h
    · cases h; rfl
    · cases h
  · cases h

/-- Helper: `process_dir_entry_result` preserves depth and file name on
success. -/
theorem process_ok_preserves {E : Type} (meta : FsPath → Except Nat FileType)
    (fl : Bool) (de0 de : DirEntry E)
    (h : process_dir_entry_result meta fl (.ok de0) = .ok de) :
    de.depth = de0.depth ∧ de.file_name = de0.file_name := by
  simp only [process_dir_entry_result] at h
  split at h
  · cases h
  · rename_i de1 h1
    obtain ⟨hd1, hn1⟩ := follow_step_preserves meta fl de0 de1 h1
    split at h
    · split at h
      · cases h
      · split at h <;> (cases h; exact ⟨hd1, hn1⟩)
    · cases h; exact ⟨hd1, hn1⟩

/-- Helper: on a non-root entry, an error produced by
`process_dir_entry_result` carries the entry's depth. -/
theorem process_error_depth {E : Type} (meta : FsPath → Except Nat FileType)
    (fl : Bool) (de0 : DirEntry E) (e : Error)
    (hdep : de0.depth ≠ 0)
    (h : process_dir_entry_result meta fl (.ok de0) = .error e) :
    e.depth = de0.depth := by
  simp only [process_dir_entry_result] at h
  split at h
  · rename_i err herr
    cases h
    exact follow_step_error_depth meta fl de0 _ herr
  · rename_i de1 h1
    obtain ⟨hd1, _⟩ := follow_step_preserves meta fl de0 de1 h1
    have hb : (de1.depth == 0) = false := by
      simp [hd1, hdep]
    rw [hb] at h
    simp at h

/-- C5 counterexample: a spec at depth 1 whose directory fails to open
yields a top-level error whose recorded depth is 0, not the spec's
depth. -/
theorem open_error_depth_cex :
    read_dir_worker cfgBase fsFail specC5 = .error (Error.from_path 0 [[114], [97]] 7) ∧
      (Error.from_path 0 [[114], [97]] 7).depth ≠ specC5.depth := by
  constructor
  · decide
  · decide

/-- C5 amended: a failure to open the directory named by a spec (whose
contents are within `max_depth`) makes the worker return the single
top-level error `Error::from_path(0, spec.path, err)` — carrying the
failing path but depth 0, not the spec's depth — with no child entries;
per-entry OS errors instead appear as individual `Err` items in the
batch, each carrying depth `spec.depth + 1`. -/
theorem open_error_top_level {B E : Type} [Inhabited E] (cfg : WalkDirOptions B E)
    (fs : Fs) (spec : ReadDirSpec B) (errno : Nat)
    (hd : spec.depth + 1 ≤ cfg.max_depth)
    (hr : fs.read_dir spec.path = .error errno) :
    read_dir_worker cfg fs spec = .error (Error.from_path 0 spec.path errno) ∧
      ∀ (raws : List (Except Nat RawEntry)) (e : Error),
        .error e ∈ read_dir_results cfg fs spec raws → e.depth = spec.depth + 1 := by
  constructor
  · unfold read_dir_worker
    have hgt : ¬ spec.depth + 1 > cfg.max_depth := by omega
    simp [hgt, hr]
  · intro raws e hmem
    unfold read_dir_results at hmem
    rw [List.mem_filterMap] at hmem
    obtain ⟨rr, _hrr, heq⟩ := hmem
    cases rr with
    | error errno2 =>
      simp only [Option.some.injEq, Except.error.injEq] at heq
      subst heq
      rfl
    | ok raw =>
      cases hft : raw.file_type with
      | error errno2 =>
        simp only [DirEntry.from_entry, hft, Option.some.injEq, Except.error.injEq] at heq
        subst heq
        rfl
      | ok ft =>
        simp only [DirEntry.from_entry, hft] at heq
        split at heq
        · cases heq
        · simp only [Option.some.injEq] at heq
          rw [process_error_depth _ _ _ e (by simp) heq]

/-- C5 amended, witness: concrete spec at depth 1, filesystem whose
`read_dir` fails with error 7 and well within `max_depth`. -/
theorem open_error_top_level_witness :
    (specC5.depth + 1 ≤ cfgBase.max_depth ∧ fsFail.read_dir specC5.path = .error 7) ∧
      (read_dir_worker cfgBase fsFail specC5 = .error (Error.from_path 0 specC5.path 7) ∧
        ∀ (raws : List (Except Nat RawEntry)) (e : Error),
          .error e ∈ read_dir_results cfgBase fsFail specC5 raws →
            e.depth = specC5.depth + 1) :=
  ⟨⟨by decide, rfl⟩, open_error_top_level cfgBase fsFail specC5 7 (by decide) rfl⟩

/-- C6 counterexample: with `skip_hidden` on, a raw OS entry whose name
begins with a dot but whose file-type query fails is not dropped — it
appears in the batch as an `Err` item. -/
theorem skip_hidden_err_cex :
    cfgBase.skip_hidden = true ∧
      is_hidden rawHiddenBad.file_name = true ∧
      read_dir_results cfgBase fsFail specC5 [.ok rawHiddenBad] =
        [.error (Error.from_path 2 [[114], [97], [46, 97]] 5)] := by
  refine ⟨rfl, by decide, by decide⟩

/-- C6 amended: with `skip_hidden` on, a raw OS entry whose file-type
query succeeds and whose name is hidden is dropped from the batch
entirely (neither `Ok` nor `Err`); every `Ok` entry of the batch has a
non-hidden name; the hidden test is the UTF-8 view test, and a name that
fails UTF-8 decoding is never hidden. Raw entries whose per-entry
file-type query fails surface as `Err` items regardless of their name. -/
theorem skip_hidden_drops {B E : Type} [Inhabited E] (cfg : WalkDirOptions B E)
    (fs : Fs) (spec : ReadDirSpec B) (hsh : cfg.skip_hidden = true) :
    (∀ (l1 l2 : List (Except Nat RawEntry)) (raw : RawEntry) (ft : FileType),
        raw.file_type = .ok ft → is_hidden raw.file_name = true →
        read_dir_results cfg fs spec (l1 ++ .ok raw :: l2) =
          read_dir_results cfg fs spec l1 ++ read_dir_results cfg fs spec l2) ∧
      (∀ (raws : List (Except Nat RawEntry)) (de : DirEntry E),
        .ok de ∈ read_dir_results cfg fs spec raws → is_hidden de.file_name = false) ∧
      (∀ name : OsString, utf8Decode name = none → is_hidden name = false) := by
  refine ⟨?_, ?_, ?_⟩
  · intro l1 l2 raw ft hft hh
    unfold read_dir_results
    rw [List.filterMap_append, List.filterMap_cons]
    simp [DirEntry.from_entry, hft, hsh, hh]
  · intro raws de hmem
    unfold read_dir_results at hmem
    rw [List.mem_filterMap] at hmem
    obtain ⟨rr, _hrr, heq⟩ := hmem
    cases rr with
    | error errno2 => simp at heq
    | ok raw =>
      cases hft : raw.file_type with
      | error errno2 => simp [DirEntry.from_entry, hft] at heq
      | ok ft =>
        simp only [DirEntry.from_entry, hft] at heq
        split at heq
        · cases heq
        · rename_i hcond
          simp only [Option.some.injEq] at heq
          obtain ⟨_, hn⟩ := process_ok_preserves _ _ _ de heq
          rw [hn]
          rw [hsh] at hcond
          simpa using hcond
  · intro name hdec
    unfold is_hidden
    rw [hdec]

/-- C6 amended, witness: a hidden entry (".a") with a successful
file-type query is dropped even though a sibling error entry and a
visible entry survive. -/
theorem skip_hidden_drops_witness :
    cfgBase.skip_hidden = true ∧
      (∀ (l1 l2 : List (Except Nat RawEntry)) (raw : RawEntry) (ft : FileType),
        raw.file_type = .ok ft → is_hidden raw.file_name = true →
        read_dir_results cfgBase fsFail specC5 (l1 ++ .ok raw :: l2) =
          read_dir_results cfgBase fsFail specC5 l1 ++ read_dir_results cfgBase fsFail specC5 l2) ∧
      (∀ (raws : List (Except Nat RawEntry)) (de : DirEntry Unit),
        .ok de ∈ read_dir_results cfgBase fsFail specC5 raws → is_hidden de.file_name = false) ∧
      (∀ name : OsString, utf8Decode name = none → is_hidden name = false) :=
  ⟨rfl, skip_hidden_drops cfgBase fsFail specC5 rfl⟩

/-- C4. A root entry (depth 0) that is a symlink is followed even when
`follow_links` is false: when the link target is a directory the root's
`read_children_path` is set (so the walk descends), while the root's
reported file type is `symlink` when `follow_links` is off and the
target's type when it is on. -/
theorem root_symlink_followed {E : Type} (meta : FsPath → Except Nat FileType)
    (de : DirEntry E) (t : FileType)
    (h0 : de.depth = 0) (hs : de.file_type = FileType.symlink)
    (hm : meta de.path = .ok t) (ht : t ≠ FileType.symlink) :
    (∃ d : DirEntry E, process_dir_entry_result meta false (.ok de) = .ok d ∧
        d.file_type = FileType.symlink ∧
        (t = FileType.dir → d.read_children_path = some de.path)) ∧
      (∃ d : DirEntry E, process_dir_entry_result meta true (.ok de) = .ok d ∧
        d.file_type = t ∧
        (t = FileType.dir → d.read_children_path = some de.path)) := by
  constructor
  · by_cases htd : t = FileType.dir
    · subst htd
      refine ⟨{ de with read_children_path := some de.path }, ?_, hs, fun _ => rfl⟩
      simp [process_dir_entry_result, h0, hs, hm, FileType.is_symlink, FileType.is_dir]
    · have hnd : t.is_dir = false := by
        cases t <;> simp_all [FileType.is_dir]
      refine ⟨de, ?_, hs, fun hc => absurd hc htd⟩
      simp [process_dir_entry_result, h0, hs, hm, FileType.is_symlink, hnd]
  · have hnsym : t.is_symlink = false := by
      cases t <;> simp_all [FileType.is_symlink]
    refine ⟨{ de with
              file_type := t
              read_children_path := if t.is_dir then some de.path else none },
            ?_, rfl, ?_⟩
    · simp [process_dir_entry_result, hs, FileType.is_symlink, DirEntry.follow_symlink,
        hm, hnsym]
    · intro htd
      simp [htd, FileType.is_dir]

/-- C4 witness: a concrete root symlink entry resolving to a directory,
under both settings of `follow_links`. -/
theorem root_symlink_followed_witness :
    (deC4.depth = 0 ∧ deC4.file_type = FileType.symlink ∧
        metaC4 deC4.path = .ok FileType.dir ∧ FileType.dir ≠ FileType.symlink) ∧
      ((∃ d : DirEntry Unit, process_dir_entry_result metaC4 false (.ok deC4) = .ok d ∧
          d.file_type = FileType.symlink ∧
          (FileType.dir = FileType.dir → d.read_children_path = some deC4.path)) ∧
        (∃ d : DirEntry Unit, process_dir_entry_result metaC4 true (.ok deC4) = .ok d ∧
          d.file_type = FileType.dir ∧
          (FileType.dir = FileType.dir → d.read_children_path = some deC4.path))) :=
  ⟨⟨rfl, rfl, rfl, by decide⟩,
    root_symlink_followed metaC4 deC4 FileType.dir rfl rfl rfl (by decide)⟩

/-- Helper: `cmpBytes` is reflexive. -/
theorem cmpBytes_self (a : OsString) : cmpBytes a a = .eq := by
  induction a with
  | nil => rfl
  | cons x xs ih =>
    have hc : compare x x = Ordering.eq := Nat.compare_eq_eq.mpr rfl
    simp [cmpBytes, hc, ih]

/-- Helper: swapping the arguments of `cmpBytes` swaps the ordering. -/
theorem cmpBytes_swap (a : OsString) : ∀ b : OsString, cmpBytes b a = (cmpBytes a b).swap := by
  induction a with
  | nil => intro b; cases b <;> rfl
  | cons x xs ih =>
    intro b
    cases b with
    | nil => rfl
    | cons y ys =>
      simp only [cmpBytes]
      rcases Nat.lt_trichotomy x y with h | h | h
      · have h1 : compare x y = .lt := Nat.compare_eq_lt.mpr h
        have h2 : compare y x = .gt := Nat.compare_eq_gt.mpr h
        simp [h1, h2, Ordering.swap]
      · subst h
        have h1 : compare x x = .eq := Nat.compare_eq_eq.mpr rfl
        simp [h1, ih]
      · have h1 : compare x y = .gt := Nat.compare_eq_gt.mpr h
        have h2 : compare y x = .lt := Nat.compare_eq_lt.mpr h
        simp [h1, h2, Ordering.swap]

/-- Helper: transitivity of the non-strict byte order. -/
theorem cmpBytes_le_trans : ∀ {a b c : OsString},
    cmpBytes a b ≠ .gt → cmpBytes b c ≠ .gt → cmpBytes a c ≠ .gt := by
  intro a
  induction a with
  | nil =>
    intro b c _ _
    cases c <;> simp [cmpBytes]
  | cons x xs ih =>
    intro b c h1 h2
    cases b with
    | nil => simp [cmpBytes] at h1
    | cons y ys =>
      cases c with
      | nil => simp [cmpBytes] at h2
      | cons z zs =>
        simp only [cmpBytes] at h1 h2 ⊢
        rcases Nat.lt_trichotomy x y with hxy | hxy | hxy
        · rcases Nat.lt_trichotomy y z with hyz | hyz | hyz
          · have hz : compare x z = .lt := Nat.compare_eq_lt.mpr (Nat.lt_trans hxy hyz)
            simp [hz]
          · subst hyz
            have hz : compare x y = .lt := Nat.compare_eq_lt.mpr hxy
            simp [hz]
          · have hz : compare y z = .gt := Nat.compare_eq_gt.mpr hyz
            simp [hz] at h2
        · subst hxy
          have hx : compare x x = .eq := Nat.compare_eq_eq.mpr rfl
          rw [hx] at h1
          rcases Nat.lt_trichotomy x z with hyz | hyz | hyz
          · have hz : compare x z = .lt := Nat.compare_eq_lt.mpr hyz
            simp [hz]
          · subst hyz
            rw [hx] at h2 ⊢
            exact ih h1 h2
          · have hz : compare x z = .gt := Nat.compare_eq_gt.mpr hyz
            rw [hz] at h2
            exact absurd rfl h2
        · have hz : compare x y = .gt := Nat.compare_eq_gt.mpr hxy
          rw [hz] at h1
          exact absurd rfl h1

/-- Helper: swapping the arguments of `resultCmp` swaps the ordering. -/
theorem resultCmp_swap {E : Type} (a b : Res E) : resultCmp b a = (resultCmp a b).swap := by
  cases a <;> cases b <;> simp only [resultCmp] <;> first | rfl | exact cmpBytes_swap _ _

/-- The comparator order is total. -/
instance leRes_total {E : Type} : IsTotal (Res E) leRes :=
  ⟨fun a b => by
    by_cases h : resultCmp a b = .gt
    · right
      unfold leRes
      rw [resultCmp_swap, h]
      decide
    · left
      exact h⟩

/-- The comparator order is transitive. -/
instance leRes_trans {E : Type} : IsTrans (Res E) leRes :=
  ⟨fun a b c h1 h2 => by
    unfold leRes at h1 h2 ⊢
    cases a with
    | error ea =>
      cases b with
      | error eb =>
        cases c with
        | error ec => simp [resultCmp]
        | ok dc => simp [resultCmp] at h2
      | ok db => simp [resultCmp] at h1
    | ok da =>
      cases c with
      | error ec => simp [resultCmp]
      | ok dc =>
        cases b with
        | error eb => simp [resultCmp] at h2
        | ok db =>
          simp only [resultCmp] at h1 h2 ⊢
          exact cmpBytes_le_trans h1 h2⟩

/-- Helper: once an `Err` appears, everything `leRes`-after it is an
`Err`. -/
theorem leRes_err_mono {E : Type} {a b : Res E} (h : leRes a b)
    (ha : isErrRes a = true) : isErrRes b = true := by
  cases a <;> cases b <;> simp_all [leRes, resultCmp, isErrRes]

/-- Helper: filtering an `orderedInsert` by a class of mutually
`r`-related elements either prepends the inserted element (when it is in
the class) or leaves the filter unchanged. -/
theorem filter_orderedInsert {α : Type} (r : α → α → Prop) [DecidableRel r]
    (p : α → Bool) (hcl : ∀ x y, p x = true → p y = true → r x y)
    (x : α) (l : List α) :
    (List.orderedInsert r x l).filter p =
      if p x then x :: l.filter p else l.filter p := by
  induction l with
  | nil => by_cases hx : p x <;> simp [List.orderedInsert, List.filter_cons, hx]
  | cons b t ih =>
    rw [List.orderedInsert]
    split
    · by_cases hx : p x <;> simp [List.filter_cons, hx]
    · rename_i hrb
      by_cases hx : p x
      · have hb : p b = false := by
          rcases Bool.eq_false_or_eq_true (p b) with h | h
          · exact absurd (hcl x b hx h) hrb
          · exact h
        simp [List.filter_cons, hb, ih, hx]
      · have hx' : p x = false := by simpa using hx
        simp [List.filter_cons, ih, hx']

/-- Helper: a stable insertion sort leaves the relative order of every
class of mutually `r`-related elements unchanged. -/
theorem filter_insertionSort {α : Type} (r : α → α → Prop) [DecidableRel r]
    (p : α → Bool) (hcl : ∀ x y, p x = true → p y = true → r x y) (l : List α) :
    (List.insertionSort r l).filter p = l.filter p := by
  induction l with
  | nil => rfl
  | cons a t ih =>
    rw [List.insertionSort, filter_orderedInsert r p hcl, List.filter_cons]
    by_cases ha : p a <;> simp [ha, ih]

/-- C2. With `sort` enabled (and the directory actually enumerated), the
worker hands the user callback exactly the stably sorted batch; the sort
is a permutation, it is sorted under the worker's comparator (`Ok`s by
`file_name` byte order), every `Ok` precedes every `Err`, the `Err`
items keep their input order, and `Ok` items with equal names keep their
input (OS enumeration) order. -/
theorem sort_batch_spec {B E : Type} [Inhabited E] (cfg : WalkDirOptions B E) (fs : Fs)
    (spec : ReadDirSpec B) (raws : List (Except Nat RawEntry))
    (hs : cfg.sort = true) (hd : spec.depth + 1 ≤ cfg.max_depth)
    (hr : fs.read_dir spec.path = .ok raws) :
    read_dir_worker cfg fs spec =
        .ok (apply_process_read_dir cfg spec (sort_batch (read_dir_results cfg fs spec raws))) ∧
      ∀ l : List (Res E),
        (sort_batch l).Perm l ∧
          (sort_batch l).Pairwise leRes ∧
          (sort_batch l).Pairwise (fun a b => isErrRes a = true → isErrRes b = true) ∧
          (sort_batch l).filter isErrRes = l.filter isErrRes ∧
          ∀ name : OsString,
            (sort_batch l).filter (isOkNamed name) = l.filter (isOkNamed name) := by
  constructor
  · unfold read_dir_worker
    have hgt : ¬ spec.depth + 1 > cfg.max_depth := by omega
    simp [hgt, hr, pre_callback_batch, hs]
  · intro l
    refine ⟨List.perm_insertionSort leRes l, List.sorted_insertionSort leRes l, ?_, ?_, ?_⟩
    · exact (List.sorted_insertionSort leRes l).imp (fun h ha => leRes_err_mono h ha)
    · exact filter_insertionSort leRes isErrRes
        (fun x y hx hy => by
          cases x <;> cases y <;> simp_all [isErrRes, leRes, resultCmp]) l
    · intro name
      exact filter_insertionSort leRes (isOkNamed name)
        (fun x y hx hy => by
          cases x <;> cases y <;> simp_all [isOkNamed, leRes, resultCmp, cmpBytes_self]) l

/-- C2 witness: a root directory enumerating "b", an iteration error,
then "a", with sorting enabled. -/
theorem sort_batch_spec_witness :
    (cfgC2.sort = true ∧ specC2.depth + 1 ≤ cfgC2.max_depth ∧
        fsC2.read_dir specC2.path = .ok rawsC2) ∧
      (read_dir_worker cfgC2 fsC2 specC2 =
          .ok (apply_process_read_dir cfgC2 specC2
            (sort_batch (read_dir_results cfgC2 fsC2 specC2 rawsC2))) ∧
        ∀ l : List (Res Unit),
          (sort_batch l).Perm l ∧
            (sort_batch l).Pairwise leRes ∧
            (sort_batch l).Pairwise (fun a b => isErrRes a = true → isErrRes b = true) ∧
            (sort_batch l).filter isErrRes = l.filter isErrRes ∧
            ∀ name : OsString,
              (sort_batch l).filter (isOkNamed name) = l.filter (isOkNamed name)) :=
  ⟨⟨rfl, by decide, rfl⟩, sort_batch_spec cfgC2 fsC2 specC2 rawsC2 rfl (by decide) rfl⟩

/-- Helper: indexing preserves length. -/
theorem with_idx_length {α : Type} : ∀ (l : List α) (i : Nat),
    (with_idx l i).length = l.length
  | [], _ => rfl
  | a :: t, i => by simp [with_idx, with_idx_length t (i + 1)]

/-- Helper: the issuance keys of an indexed list are consecutive. -/
theorem map_fst_with_idx {α : Type} : ∀ (l : List α) (i : Nat),
    (with_idx l i).map Prod.fst = List.range' i l.length
  | [], _ => by simp [with_idx]
  | a :: t, i => by
    simp [with_idx, map_fst_with_idx t (i + 1), List.range'_succ]

/-- Helper: looking up an issuance index in an in-order indexed list. -/
theorem lookup_with_idx {α : Type} : ∀ (l : List α) (i k : Nat),
    lookup_idx (with_idx l i) (i + k) = l.get? k
  | [], _, _ => rfl
  | a :: t, i, 0 => by simp [with_idx, lookup_idx]
  | a :: t, i, k + 1 => by
    have hne : i ≠ i + (k + 1) := by omega
    simp only [with_idx, lookup_idx, if_neg hne]
    rw [show i + (k + 1) = (i + 1) + k by omega]
    rw [lookup_with_idx t (i + 1) k]
    simp

/-- Helper: a failed slot lookup means the key is absent. -/
theorem lookup_idx_eq_none {α : Type} : ∀ (arr : List (Nat × α)) (k : Nat),
    lookup_idx arr k = none ↔ k ∉ arr.map Prod.fst
  | [], k => by simp [lookup_idx]
  | (j, v') :: rest, k => by
    by_cases h : j = k
    · subst h
      simp [lookup_idx]
    · simp only [lookup_idx, if_neg h, List.map_cons, List.mem_cons]
      rw [lookup_idx_eq_none rest k]
      constructor
      · rintro hnone (hk | hk)
        · exact h hk.symm
        · exact hnone hk
      · intro hcon
        exact fun hk => hcon (Or.inr hk)

/-- Helper: with distinct keys, a successful slot lookup is exactly
membership. -/
theorem lookup_idx_eq_some {α : Type} : ∀ (arr : List (Nat × α)),
    (arr.map Prod.fst).Nodup → ∀ (k : Nat) (v : α),
    (lookup_idx arr k = some v ↔ (k, v) ∈ arr)
  | [], _, k, v => by simp [lookup_idx]
  | (j, v') :: rest, hn, k, v => by
    simp only [List.map_cons, List.nodup_cons] at hn
    by_cases h : j = k
    · subst h
      have hl : lookup_idx ((j, v') :: rest) j = some v' := by
        simp [lookup_idx]
      rw [hl]
      constructor
      · intro hv
        have hv' : v' = v := Option.some.inj hv
        subst hv'
        exact List.mem_cons_self _ _
      · intro hm
        rcases List.mem_cons.mp hm with heq | hmem
        · cases heq
          rfl
        · exact absurd (List.mem_map_of_mem Prod.fst hmem) hn.1
    · simp only [lookup_idx, if_neg h, List.mem_cons]
      rw [lookup_idx_eq_some rest hn.2 k v]
      constructor
      · intro hm
        exact Or.inr hm
      · rintro (heq | hm)
        · exact absurd (congrArg Prod.fst heq).symm h
        · exact hm

/-- Helper: with distinct keys, slot lookups are invariant under the
arrival order. -/
theorem lookup_idx_perm {α : Type} {a1 a2 : List (Nat × α)} (h : a1.Perm a2)
    (hn : (a1.map Prod.fst).Nodup) (k : Nat) :
    lookup_idx a1 k = lookup_idx a2 k := by
  have hn2 : (a2.map Prod.fst).Nodup := ((h.map Prod.fst).nodup_iff).mp hn
  cases hv : lookup_idx a1 k with
  | none =>
    have h1 := (lookup_idx_eq_none a1 k).mp hv
    have h2 : k ∉ a2.map Prod.fst := fun hm => h1 (((h.map Prod.fst).mem_iff).mpr hm)
    exact ((lookup_idx_eq_none a2 k).mpr h2).symm
  | some v =>
    have h1 := (lookup_idx_eq_some a1 hn k v).mp hv
    exact ((lookup_idx_eq_some a2 hn2 k v).mpr (h.mem_iff.mp h1)).symm

/-- Helper: reading a list back out of its own indexed positions. -/
theorem filterMap_range_get {α : Type} : ∀ l : List α,
    (List.range l.length).filterMap (fun k => l.get? k) = l
  | [] => rfl
  | a :: t => by
    rw [List.length_cons, List.range_succ_eq_map]
    rw [List.filterMap_cons]
    simp only [List.get?_cons_zero]
    rw [List.filterMap_map]
    have hc : (fun k => (a :: t).get? k) ∘ (· + 1) = fun k => t.get? k := by
      funext k
      simp [List.get?_cons_succ]
    rw [hc, filterMap_range_get t]

/-- Helper: the bus contract — whatever arrival order the completed
slots come in, the delivered sequence is the issuance-order batch
sequence. -/
theorem delivered_batches_of_perm {α : Type} {arrival : List (Nat × α)} {bs : List α}
    (h : arrival.Perm (with_idx bs 0)) : delivered_batches arrival = bs := by
  have hlen : arrival.length = bs.length := by
    rw [h.length_eq, with_idx_length]
  have hnidx : ((with_idx bs 0).map Prod.fst).Nodup := by
    rw [map_fst_with_idx]
    exact List.nodup_range' 0 bs.length
  have hn : (arrival.map Prod.fst).Nodup := ((h.map Prod.fst).nodup_iff).mpr hnidx
  have hlk : ∀ k, lookup_idx arrival k = bs.get? k := by
    intro k
    rw [lookup_idx_perm h hn k]
    have hwi := lookup_with_idx bs 0 k
    simpa using hwi
  unfold delivered_batches
  rw [hlen, funext hlk, filterMap_range_get bs]

/-- C8. The yielded sequence of the walk is a function of the root, the
filesystem's `read_dir` order, and the options (sort flag and user
callback included) alone: two runs whose completion schedules are any
permutations of the issued batches, under any two parallelism choices,
yield identical sequences, equal to the serial run. -/
theorem walk_schedule_independent {B E : Type} [Inhabited E] (cfg : WalkDirOptions B E)
    (fs : Fs) (root : FsPath) (fuel : Nat) (p1 p2 : Parallelism)
    (a1 a2 : List (Nat × Except Error (ReadDir B E)))
    (h1 : a1.Perm (with_idx (batch_stream cfg fs root fuel) 0))
    (h2 : a2.Perm (with_idx (batch_stream cfg fs root fuel) 0)) :
    run_scheduled cfg fs root fuel p1 a1 = run_scheduled cfg fs root fuel p2 a2 ∧
      run_scheduled cfg fs root fuel p1 a1 = run_serial cfg fs root fuel := by
  have e1 := delivered_batches_of_perm h1
  have e2 := delivered_batches_of_perm h2
  unfold run_scheduled run_serial
  rw [e1, e2]
  exact ⟨rfl, rfl⟩

/-- C8 witness: a concrete two-directory tree; the batches arriving in
reverse order under `Serial`, and in order under a rayon pool, yield the
same sequence as the serial run. -/
theorem walk_schedule_independent_witness :
    (arrC8.Perm (with_idx (batch_stream cfgBase fsC8 [[114]] 2) 0) ∧
        (with_idx (batch_stream cfgBase fsC8 [[114]] 2) 0).Perm
          (with_idx (batch_stream cfgBase fsC8 [[114]] 2) 0)) ∧
      (run_scheduled cfgBase fsC8 [[114]] 2 Parallelism.Serial arrC8 =
          run_scheduled cfgBase fsC8 [[114]] 2 (Parallelism.RayonNewPool 4)
            (with_idx (batch_stream cfgBase fsC8 [[114]] 2) 0) ∧
        run_scheduled cfgBase fsC8 [[114]] 2 Parallelism.Serial arrC8 =
          run_serial cfgBase fsC8 [[114]] 2) :=
  ⟨⟨by decide, by decide⟩,
    walk_schedule_independent cfgBase fsC8 [[114]] 2 Parallelism.Serial
      (Parallelism.RayonNewPool 4) arrC8 (with_idx (batch_stream cfgBase fsC8 [[114]] 2) 0)
      (by decide) (by decide)⟩

/-- C7. With a callback configured, the callback is invoked exactly once
for the root's virtual parent, with an absent depth argument; the depth
argument is absent iff the invocation is the root one; and every
non-root invocation passes its directory spec's own depth. -/
theorem callback_root_depth {B E : Type} [Inhabited E] (cfg : WalkDirOptions B E)
    (fs : Fs) (root : FsPath) (fuel : Nat)
    (hcb : cfg.process_read_dir.isSome = true) :
    (∃ rest, call_trace cfg fs root fuel = CallSite.root :: rest ∧
        ∀ c ∈ rest, ∃ spec, c = CallSite.dir spec) ∧
      (∀ c ∈ call_trace cfg fs root fuel, callArg c = none ↔ c = CallSite.root) ∧
      (∀ spec : ReadDirSpec B, CallSite.dir spec ∈ call_trace cfg fs root fuel →
        callArg (CallSite.dir spec) = some spec.depth) ∧
      (call_trace cfg fs root fuel).countP (fun c => (callArg c).isNone) = 1 := by
  obtain ⟨f, hf⟩ := Option.isSome_iff_exists.mp hcb
  have htr : call_trace cfg fs root fuel =
      CallSite.root ::
        (spec_trace cfg fs root fuel).filterMap (fun spec =>
          if spec.depth + 1 > cfg.max_depth then none
          else
            match fs.read_dir spec.path with
            | .error _ => none
            | .ok _ => some (CallSite.dir spec)) := by
    unfold call_trace
    rw [hf]
  have hrest : ∀ c ∈ (spec_trace cfg fs root fuel).filterMap (fun spec =>
      if spec.depth + 1 > cfg.max_depth then none
      else
        match fs.read_dir spec.path with
        | .error _ => none
        | .ok _ => some (CallSite.dir spec)), ∃ spec, c = CallSite.dir spec := by
    intro c hc
    rw [List.mem_filterMap] at hc
    obtain ⟨spec, _, heq⟩ := hc
    split at heq
    · cases heq
    · split at heq
      · cases heq
      · cases heq
        exact ⟨spec, rfl⟩
  refine ⟨⟨_, htr, hrest⟩, ?_, ?_, ?_⟩
  · intro c hc
    rw [htr, List.mem_cons] at hc
    rcases hc with rfl | hc
    · simp [callArg]
    · obtain ⟨spec, rfl⟩ := hrest c hc
      simp [callArg]
  · intro spec _
    rfl
  · rw [htr, List.countP_cons]
    have hz : (List.countP (fun c => (callArg c).isNone)
        ((spec_trace cfg fs root fuel).filterMap (fun spec =>
          if spec.depth + 1 > cfg.max_depth then none
          else
            match fs.read_dir spec.path with
            | .error _ => none
            | .ok _ => some (CallSite.dir spec)))) = 0 := by
      rw [List.countP_eq_zero]
      intro c hc
      obtain ⟨spec, rfl⟩ := hrest c hc
      simp [callArg]
    rw [hz]
    rfl

/-- C7 witness: a pass-through callback on the concrete two-directory
tree. -/
theorem callback_root_depth_witness :
    cfgC7.process_read_dir.isSome = true ∧
      ((∃ rest, call_trace cfgC7 fsC8 [[114]] 2 = CallSite.root :: rest ∧
          ∀ c ∈ rest, ∃ spec, c = CallSite.dir spec) ∧
        (∀ c ∈ call_trace cfgC7 fsC8 [[114]] 2, callArg c = none ↔ c = CallSite.root) ∧
        (∀ spec : ReadDirSpec Unit, CallSite.dir spec ∈ call_trace cfgC7 fsC8 [[114]] 2 →
          callArg (CallSite.dir spec) = some spec.depth) ∧
        (call_trace cfgC7 fsC8 [[114]] 2).countP (fun c => (callArg c).isNone) = 1) :=
  ⟨rfl, callback_root_depth cfgC7 fsC8 [[114]] 2 rfl⟩
